import Mathlib

/-!
Verification of the WhiteBoardToCode drawing core.

This file gives a shallow embedding of the repository's History Engine
(`src/utils/historyManager.ts`) and of the Whiteboard interaction layer
(`src/components/Whiteboard.tsx`): the scene data model, the pointer-event
handlers, the eraser hit-test and the element renderer.  Pointer coordinates
and style numbers are modelled as rationals; JavaScript's truthiness-based
defaulting (`x || d`, where `0`, `""`, `null` and `undefined` are falsy) is
modelled explicitly by the `jsOrQ` / `jsOrStr` helpers.  The square-root
comparisons of the source (`Math.sqrt(dx*dx+dy*dy) <= r`) are embedded as the
equivalent `0 ≤ r ∧ dx²+dy² ≤ r²` (for `r < 0` both sides are false, and for
`0 ≤ r` squaring is an order isomorphism on nonnegatives).
-/

/-- A 2-D point with rational coordinates (models `{ x: number; y: number }`). -/
structure Point where
  x : ℚ
  y : ℚ
deriving DecidableEq, Repr, Inhabited

/-- Width/height pair (models `{ width: number; height: number }`). -/
structure Dimensions where
  width : ℚ
  height : ℚ
deriving DecidableEq, Repr, Inhabited

/-- The `type` discriminator of `CanvasElement` in `src/types/index.ts`. -/
inductive ElementType where
  | path
  | rectangle
  | circle
  | text
deriving DecidableEq, Repr, Inhabited

/-- The scene element record of `src/types/index.ts`.  The `data` bag is
flattened into its two used fields: `points` (absent modelled as `[]`, which is
behaviourally equivalent in every consumer below) and `text` (optional). -/
structure CanvasElement where
  id : String
  type : ElementType
  points : List Point
  text : Option String
  position : Point
  dimensions : Option Dimensions
  timestamp : Nat
  color : Option String
  strokeWidth : Option ℚ
  fillColor : Option String
deriving DecidableEq, Repr

/-- The `WhiteboardSettings` record of `src/types/index.ts`. -/
structure WhiteboardSettings where
  strokeColor : String
  fillColor : String
  strokeWidth : ℚ
  fontSize : ℚ
deriving DecidableEq, Repr

/-- JavaScript `v || d` on an optional number: `undefined` and `0` fall back. -/
def jsOrQ (v : Option ℚ) (d : ℚ) : ℚ :=
  match v with
  | some w => if w = 0 then d else w
  | none => d

/-- JavaScript `v || d` on an optional string: `undefined` and `""` fall back. -/
def jsOrStr (v : Option String) (d : String) : String :=
  match v with
  | some c => if c = "" then d else c
  | none => d

/-! ## History Engine (`src/utils/historyManager.ts`) -/

/-- The `HistoryState` record: one snapshot plus its timestamp. -/
structure HistoryState where
  elements : List CanvasElement
  timestamp : Nat
deriving DecidableEq, Repr

/-- The `HistoryManager` class state: snapshot list, cursor, capacity.
`currentIndex` is an integer because the source uses `-1` for "empty". -/
structure HistoryManager where
  history : List HistoryState
  currentIndex : Int
  maxHistorySize : Nat
deriving DecidableEq, Repr

/-- Source `new HistoryManager(maxSize)`: empty history, cursor `-1`. -/
def HistoryManager.init (maxSize : Nat) : HistoryManager :=
  ⟨[], -1, maxSize⟩

/-- JavaScript `list.slice(0, k)` (a negative bound counts from the end,
clamped at `0`). -/
def jsSliceTo (l : List HistoryState) (k : Int) : List HistoryState :=
  if k < 0 then l.take ((l.length : Int) + k).toNat else l.take k.toNat

/-- Source `addState(elements)`: truncate beyond the cursor, push a deep copy,
advance the cursor, then shift the oldest entry off if capacity is exceeded.
The deep clone of the source is value copying here. -/
def HistoryManager.addState (m : HistoryManager) (elements : List CanvasElement)
    (ts : Nat) : HistoryManager :=
  let pushed := jsSliceTo m.history (m.currentIndex + 1) ++ [⟨elements, ts⟩]
  let idx := m.currentIndex + 1
  if pushed.length > m.maxHistorySize then
    { m with history := pushed.drop 1, currentIndex := idx - 1 }
  else
    { m with history := pushed, currentIndex := idx }

/-- Source `undo()`: when the cursor is strictly positive, decrement it and return
the snapshot it now denotes; otherwise return `null` (`none`). -/
def HistoryManager.undo (m : HistoryManager) :
    HistoryManager × Option (List CanvasElement) :=
  if 0 < m.currentIndex then
    ({ m with currentIndex := m.currentIndex - 1 },
      (m.history[(m.currentIndex - 1).toNat]?).map (·.elements))
  else (m, none)

/-- Source `redo()`: when the cursor is before the last index, increment it and
return the snapshot it now denotes; otherwise return `null` (`none`). -/
def HistoryManager.redo (m : HistoryManager) :
    HistoryManager × Option (List CanvasElement) :=
  if m.currentIndex < (m.history.length : Int) - 1 then
    ({ m with currentIndex := m.currentIndex + 1 },
      (m.history[(m.currentIndex + 1).toNat]?).map (·.elements))
  else (m, none)

/-- Source `canUndo()`. -/
def HistoryManager.canUndo (m : HistoryManager) : Bool :=
  decide (0 < m.currentIndex)

/-- Source `canRedo()`. -/
def HistoryManager.canRedo (m : HistoryManager) : Bool :=
  decide (m.currentIndex < (m.history.length : Int) - 1)

/-- Source `clear()`. -/
def HistoryManager.clear (m : HistoryManager) : HistoryManager :=
  { m with history := [], currentIndex := -1 }

/-- Source `getCurrentState()`. -/
def HistoryManager.getCurrentState (m : HistoryManager) :
    Option (List CanvasElement) :=
  if 0 ≤ m.currentIndex ∧ m.currentIndex < (m.history.length : Int) then
    (m.history[m.currentIndex.toNat]?).map (·.elements)
  else none

/-- Source `undo()` applied `k` times (keeping only the state). -/
def undoN (m : HistoryManager) : Nat → HistoryManager
  | 0 => m
  | k + 1 => ((undoN m k).undo).1

/-- Source `redo()` applied `k` times (keeping only the state). -/
def redoN (m : HistoryManager) : Nat → HistoryManager
  | 0 => m
  | k + 1 => ((redoN m k).redo).1

/-- Source `addState` folded over a list of scenes (timestamps are irrelevant to
every claim, so they are all `0`). -/
def runAdds (m : HistoryManager) (ss : List (List CanvasElement)) :
    HistoryManager :=
  ss.foldl (fun m s => m.addState s 0) m

/-- One externally triggerable History Engine operation. -/
inductive HistOp where
  | add (elements : List CanvasElement) (ts : Nat)
  | hundo
  | hredo
  | hclear

/-- Apply one operation to a `HistoryManager` state. -/
def applyHistOp (m : HistoryManager) : HistOp → HistoryManager
  | .add es ts => m.addState es ts
  | .hundo => m.undo.1
  | .hredo => m.redo.1
  | .hclear => m.clear

/-- Run a sequence of operations from a given state. -/
def runHistOps (m : HistoryManager) (ops : List HistOp) : HistoryManager :=
  ops.foldl applyHistOp m

/-- The cursor well-formedness invariant of the History Engine. -/
def HistInv (m : HistoryManager) : Prop :=
  -1 ≤ m.currentIndex ∧ m.currentIndex < (m.history.length : Int)

instance (m : HistoryManager) : Decidable (HistInv m) := by
  unfold HistInv
  infer_instance

/-! ## Whiteboard interaction layer (`src/components/Whiteboard.tsx`) -/

/-- The `Tool` union of `src/types/index.ts`. -/
inductive Tool where
  | pen
  | rectangle
  | circle
  | text
  | select
  | eraser
deriving DecidableEq, Repr

/-- The mutable component state of `Whiteboard.tsx`:
`isDrawing`, `elements`, `currentPath`. -/
structure WhiteboardState where
  isDrawing : Bool
  elements : List CanvasElement
  currentPath : List Point
deriving DecidableEq, Repr

/-- The initial component state (all `useState` initialisers). -/
def wbInit : WhiteboardState :=
  ⟨false, [], []⟩

/-- Source `isPointInElement(point, element)`: the eraser hit-test. -/
def isPointInElement (p : Point) (el : CanvasElement) : Bool :=
  match el.type with
  | .rectangle =>
    let w := jsOrQ (el.dimensions.map (·.width)) 100
    let h := jsOrQ (el.dimensions.map (·.height)) 100
    decide (el.position.x ≤ p.x ∧ p.x ≤ el.position.x + w ∧
            el.position.y ≤ p.y ∧ p.y ≤ el.position.y + h)
  | .circle =>
    -- source: Math.sqrt(dx*dx + dy*dy) <= radius
    let r := jsOrQ (el.dimensions.map (·.width)) 50
    let dx := p.x - el.position.x
    let dy := p.y - el.position.y
    decide (0 ≤ r ∧ dx * dx + dy * dy ≤ r * r)
  | .path =>
    -- source: points.some(q => Math.sqrt(dx*dx + dy*dy) <= 10)
    el.points.any (fun q =>
      decide ((p.x - q.x) * (p.x - q.x) + (p.y - q.y) * (p.y - q.y) ≤ 100))
  | .text =>
    let tw := ((el.text.map (fun t => (t.length : ℚ))).getD 0) * 10
    decide (el.position.x ≤ p.x ∧ p.x ≤ el.position.x + tw ∧
            el.position.y - 20 ≤ p.y ∧ p.y ≤ el.position.y)

/-- The element literal built by the rectangle/circle branch of
`handleMouseDown` (zero dimensions, style captured from settings). -/
def mkShapeElement (tool : ElementType) (st : WhiteboardSettings) (pos : Point)
    (now : Nat) : CanvasElement :=
  { id := toString now, type := tool, points := [], text := none,
    position := pos, dimensions := some ⟨0, 0⟩, timestamp := now,
    color := some st.strokeColor, strokeWidth := some st.strokeWidth,
    fillColor := some st.fillColor }

/-- The element literal built by the text branch of `handleMouseDown`
(only the stroke color is captured; no dimensions, width or fill). -/
def mkTextElement (st : WhiteboardSettings) (pos : Point) (t : String)
    (now : Nat) : CanvasElement :=
  { id := toString now, type := .text, points := [], text := some t,
    position := pos, dimensions := none, timestamp := now,
    color := some st.strokeColor, strokeWidth := none, fillColor := none }

/-- The element literal built by the pen branch of `handleMouseUp`. -/
def mkPathElement (st : WhiteboardSettings) (pts : List Point)
    (now : Nat) : CanvasElement :=
  { id := toString now, type := .path, points := pts, text := none,
    position := pts.headI, dimensions := none, timestamp := now,
    color := some st.strokeColor, strokeWidth := some st.strokeWidth,
    fillColor := none }

/-- Source `handleMouseDown`.  Returns the next component state and the list of
`onElementsChange` notifications fired during the event (in order).  The
result of the blocking `prompt` of the text branch is passed in as
`promptRes` (`none` = cancelled); `now` stands for `Date.now()`. -/
def handleMouseDown (tool : Tool) (st : WhiteboardSettings) (pos : Point)
    (promptRes : Option String) (now : Nat) (s : WhiteboardState) :
    WhiteboardState × List (List CanvasElement) :=
  let s := { s with isDrawing := true }
  match tool with
  | .eraser =>
    match s.elements.find? (fun el => isPointInElement pos el) with
    | some e =>
      let newElements := s.elements.filter (fun el => el.id ≠ e.id)
      ({ s with elements := newElements }, [newElements])
    | none => (s, [])
  | .pen => ({ s with currentPath := [pos] }, [])
  | .rectangle =>
    ({ s with elements := s.elements ++ [mkShapeElement .rectangle st pos now] }, [])
  | .circle =>
    ({ s with elements := s.elements ++ [mkShapeElement .circle st pos now] }, [])
  | .text =>
    -- source: const text = prompt(...); if (text) { ... }
    match promptRes with
    | some t =>
      if t = "" then (s, [])
      else
        let newElements := s.elements ++ [mkTextElement st pos t now]
        ({ s with elements := newElements }, [newElements])
    | none => (s, [])
  | .select => (s, [])

/-- Source `handleMouseMove`.  Fires no notification; returns the next state. -/
def handleMouseMove (tool : Tool) (pos : Point) (s : WhiteboardState) :
    WhiteboardState :=
  if s.isDrawing = false then s
  else
    match tool with
    | .pen => { s with currentPath := s.currentPath ++ [pos] }
    | .rectangle | .circle =>
      match s.elements.getLast? with
      | some lastElement =>
        let w := abs (pos.x - lastElement.position.x)
        let h := abs (pos.y - lastElement.position.y)
        { s with elements := s.elements.dropLast ++
            [{ lastElement with dimensions := some ⟨w, h⟩ }] }
      | none => s
    | _ => s

/-- Source `handleMouseUp` (also bound to `onMouseLeave`). -/
def handleMouseUp (tool : Tool) (st : WhiteboardSettings) (now : Nat)
    (s : WhiteboardState) : WhiteboardState × List (List CanvasElement) :=
  if s.isDrawing = false then (s, [])
  else
    let s := { s with isDrawing := false }
    match tool with
    | .pen =>
      if s.currentPath.length > 1 then
        let newElements := s.elements ++ [mkPathElement st s.currentPath now]
        ({ s with elements := newElements, currentPath := [] }, [newElements])
      else (s, [])
    | .rectangle | .circle => (s, [s.elements])
    | _ => (s, [])

/-- One full gesture: press, a list of moves, release.  Returns the final
state and all notifications fired, in order. -/
def runGesture (tool : Tool) (st : WhiteboardSettings) (p0 : Point)
    (promptRes : Option String) (moves : List Point) (now : Nat)
    (s : WhiteboardState) : WhiteboardState × List (List CanvasElement) :=
  let d := handleMouseDown tool st p0 promptRes now s
  let s2 := moves.foldl (fun s p => handleMouseMove tool p s) d.1
  let u := handleMouseUp tool st now s2
  (u.1, d.2 ++ u.2)

/-! ## Renderer (`drawElement` in `Whiteboard.tsx`) -/

/-- One abstract canvas paint command issued by `drawElement`. -/
inductive DrawCmd where
  | strokePath (pts : List Point) (color : String) (width : ℚ)
  | fillRect (x y w h : ℚ) (color : String)
  | strokeRect (x y w h : ℚ) (color : String) (width : ℚ)
  | fillCircle (center : Point) (r : ℚ) (color : String)
  | strokeCircle (center : Point) (r : ℚ) (color : String) (width : ℚ)
  | fillText (s : String) (pos : Point) (font : ℚ) (color : String)
deriving DecidableEq, Repr

/-- Source `drawElement(ctx, element)` as the list of paint commands it issues.
The context assignments at the top of the source function become the
`stroke`/`lineWidth`/`fill` values below (with the JS `||` fallbacks); the
text branch overrides `fillStyle` and reads `settings.fontSize` directly. -/
def drawElement (st : WhiteboardSettings) (el : CanvasElement) : List DrawCmd :=
  let stroke := jsOrStr el.color st.strokeColor
  let lineWidth := jsOrQ el.strokeWidth st.strokeWidth
  let fill := jsOrStr el.fillColor st.fillColor
  match el.type with
  | .path =>
    if el.points.length > 1 then [.strokePath el.points stroke lineWidth] else []
  | .rectangle =>
    let w := jsOrQ (el.dimensions.map (·.width)) 100
    let h := jsOrQ (el.dimensions.map (·.height)) 100
    (match el.fillColor with
     | some f => if f ≠ "" ∧ f ≠ "transparent"
                 then [.fillRect el.position.x el.position.y w h fill] else []
     | none => []) ++
    [.strokeRect el.position.x el.position.y w h stroke lineWidth]
  | .circle =>
    let r := jsOrQ (el.dimensions.map (·.width)) 50
    (match el.fillColor with
     | some f => if f ≠ "" ∧ f ≠ "transparent"
                 then [.fillCircle el.position r fill] else []
     | none => []) ++
    [.strokeCircle el.position r stroke lineWidth]
  | .text =>
    [.fillText (jsOrStr el.text "Text") el.position st.fontSize
      (jsOrStr el.color st.strokeColor)]

/-- The settings `App.tsx` starts with. -/
def stDefault : WhiteboardSettings :=
  ⟨"#374151", "transparent", 2, 16⟩

/-! ## Concrete example data used by witnesses and counterexamples -/

/-- A concrete rectangle element. -/
def elA : CanvasElement :=
  { id := "a", type := .rectangle, points := [], text := none,
    position := ⟨0, 0⟩, dimensions := some ⟨1, 1⟩, timestamp := 0,
    color := some "#374151", strokeWidth := some 2, fillColor := some "transparent" }

/-- A second concrete rectangle element. -/
def elB : CanvasElement :=
  { elA with id := "b" }

/-- A third concrete rectangle element. -/
def elC : CanvasElement :=
  { elA with id := "c" }

/-- A concrete History Engine state: two snapshots, cursor on the second. -/
def mEx : HistoryManager :=
  ⟨[⟨[elA], 0⟩, ⟨[elA, elB], 1⟩], 1, 50⟩


/-- The scene list stored after one `addState` on a full-cursor state:
append, then evict the head if capacity is exceeded. -/
def chop1 (cap : Nat) (l : List (List CanvasElement)) (s : List CanvasElement) :
    List (List CanvasElement) :=
  if l.length + 1 > cap then (l ++ [s]).drop 1 else l ++ [s]

/-- A 10×10 rectangle at the origin, appended first (bottommost). -/
def rHit1 : CanvasElement :=
  { elA with id := "r1", dimensions := some ⟨10, 10⟩ }

/-- A 10×10 rectangle at the origin, appended second (topmost). -/
def rHit2 : CanvasElement :=
  { elA with id := "r2", dimensions := some ⟨10, 10⟩ }

/-- A rectangle whose stored dimensions are `(0, 0)`. -/
def rect0 : CanvasElement :=
  { elA with id := "z", dimensions := some ⟨0, 0⟩ }

/-- A concrete text element created under the default settings. -/
def tElEx : CanvasElement :=
  mkTextElement stDefault ⟨3, 4⟩ "hi" 0

/-- The default settings with the font size changed afterwards. -/
def stBig : WhiteboardSettings :=
  { stDefault with fontSize := 32 }

/-! ## History Engine lemmas -/

/-- Source `undo` never changes the stored snapshot list. -/
theorem undo_history (m : HistoryManager) : m.undo.1.history = m.history := by
  unfold HistoryManager.undo
  split <;> rfl

/-- Source `undo` never changes the capacity. -/
theorem undo_maxSize (m : HistoryManager) :
    m.undo.1.maxHistorySize = m.maxHistorySize := by
  unfold HistoryManager.undo
  split <;> rfl

/-- Source `redo` never changes the stored snapshot list. -/
theorem redo_history (m : HistoryManager) : m.redo.1.history = m.history := by
  unfold HistoryManager.redo
  split <;> rfl

/-- Iterated `undo` never changes the stored snapshot list. -/
theorem undoN_history (m : HistoryManager) (k : Nat) :
    (undoN m k).history = m.history := by
  induction k with
  | zero => rfl
  | succ k ih => rw [undoN, undo_history, ih]

/-- Iterated `redo` never changes the stored snapshot list. -/
theorem redoN_history (m : HistoryManager) (k : Nat) :
    (redoN m k).history = m.history := by
  induction k with
  | zero => rfl
  | succ k ih => rw [redoN, redo_history, ih]

/-- Whatever `undo` returns is one of the stored snapshots. -/
theorem undo_result_mem (m : HistoryManager) (r : List CanvasElement)
    (h : m.undo.2 = some r) : r ∈ m.history.map (·.elements) := by
  unfold HistoryManager.undo at h
  by_cases hc : 0 < m.currentIndex
  · rw [if_pos hc] at h
    simp only [Option.map_eq_some'] at h
    obtain ⟨hs, hget, helems⟩ := h
    subst helems
    exact List.mem_map_of_mem _ (List.getElem?_mem hget)
  · rw [if_neg hc] at h
    simp at h

/-- The invariant holds in the initial state. -/
theorem histInv_init (cap : Nat) : HistInv (HistoryManager.init cap) := by
  constructor <;> simp [HistoryManager.init]

/-- Source `addState` preserves the invariant. -/
theorem histInv_addState (m : HistoryManager) (es : List CanvasElement) (ts : Nat)
    (h : HistInv m) : HistInv (m.addState es ts) := by
  obtain ⟨h1, h2⟩ := h
  have hk : ¬ (m.currentIndex + 1 < 0) := by omega
  have hlen : (m.history.take (m.currentIndex + 1).toNat).length =
      (m.currentIndex + 1).toNat := by
    simp only [List.length_take]
    omega
  simp only [HistInv, HistoryManager.addState, jsSliceTo, if_neg hk]
  split <;> constructor <;> simp [hlen] <;> omega

/-- Source `undo` preserves the invariant. -/
theorem histInv_undo (m : HistoryManager) (h : HistInv m) : HistInv m.undo.1 := by
  obtain ⟨h1, h2⟩ := h
  unfold HistoryManager.undo
  split
  · constructor <;> simp <;> omega
  · exact ⟨h1, h2⟩

/-- Source `redo` preserves the invariant. -/
theorem histInv_redo (m : HistoryManager) (h : HistInv m) : HistInv m.redo.1 := by
  obtain ⟨h1, h2⟩ := h
  unfold HistoryManager.redo
  split
  · constructor <;> simp <;> omega
  · exact ⟨h1, h2⟩

/-- Source `clear` re-establishes the invariant. -/
theorem histInv_clear (m : HistoryManager) : HistInv m.clear := by
  constructor <;> simp [HistoryManager.clear]

/-- Every operation preserves the invariant. -/
theorem histInv_applyOp (m : HistoryManager) (op : HistOp) (h : HistInv m) :
    HistInv (applyHistOp m op) := by
  cases op with
  | add es ts => exact histInv_addState m es ts h
  | hundo => exact histInv_undo m h
  | hredo => exact histInv_redo m h
  | hclear => exact histInv_clear m

/-- The invariant holds in every reachable state. -/
theorem histInv_runOps (m : HistoryManager) (ops : List HistOp) (h : HistInv m) :
    HistInv (runHistOps m ops) := by
  induction ops generalizing m with
  | nil => exact h
  | cons op ops ih => exact ih _ (histInv_applyOp m op h)

/-- Under the invariant, `addState` leaves the cursor at the last index. -/
theorem addState_cursor_last (m : HistoryManager) (es : List CanvasElement)
    (ts : Nat) (h : HistInv m) :
    (m.addState es ts).currentIndex = ((m.addState es ts).history.length : Int) - 1 := by
  obtain ⟨h1, h2⟩ := h
  have hk : ¬ (m.currentIndex + 1 < 0) := by omega
  have hlen : (m.history.take (m.currentIndex + 1).toNat).length =
      (m.currentIndex + 1).toNat := by
    simp only [List.length_take]
    omega
  simp only [HistoryManager.addState, jsSliceTo, if_neg hk]
  split <;> simp [hlen] <;> omega

/-- Under the invariant, `canUndo` says exactly when `undo` returns a snapshot. -/
theorem canUndo_iff_undo_some (m : HistoryManager) (h : HistInv m) :
    m.canUndo = true ↔ m.undo.2.isSome = true := by
  obtain ⟨h1, h2⟩ := h
  unfold HistoryManager.canUndo HistoryManager.undo
  split
  · rename_i hpos
    have hlt : (m.currentIndex - 1).toNat < m.history.length := by omega
    rw [List.getElem?_eq_getElem hlt]
    simpa using hpos
  · rename_i hneg
    simpa using hneg

/-- Under the invariant, `canRedo` says exactly when `redo` returns a snapshot. -/
theorem canRedo_iff_redo_some (m : HistoryManager) (h : HistInv m) :
    m.canRedo = true ↔ m.redo.2.isSome = true := by
  obtain ⟨h1, h2⟩ := h
  unfold HistoryManager.canRedo HistoryManager.redo
  split
  · rename_i hlt'
    have hlt : (m.currentIndex + 1).toNat < m.history.length := by omega
    rw [List.getElem?_eq_getElem hlt]
    simpa using hlt'
  · rename_i hneg
    simpa using hneg

/-- C1: in every well-formed History Engine state whose cursor is strictly
positive, `undo()` followed by `redo()` with no intervening `addState` returns
exactly the snapshot that was current before the undo. -/
theorem undo_redo_returns_pre_undo_scene (m : HistoryManager)
    (h1 : HistInv m) (h2 : 0 < m.currentIndex) :
    (m.undo.1.redo).2 = m.getCurrentState ∧ m.getCurrentState.isSome = true := by
  obtain ⟨hl, hr⟩ := h1
  have htn : m.currentIndex.toNat < m.history.length := by omega
  have hcur : m.getCurrentState = (m.history[m.currentIndex.toNat]?).map (·.elements) := by
    unfold HistoryManager.getCurrentState
    rw [if_pos ⟨by omega, hr⟩]
  have hu : m.undo.1 = { m with currentIndex := m.currentIndex - 1 } := by
    unfold HistoryManager.undo
    rw [if_pos h2]
  constructor
  · rw [hu, hcur]
    unfold HistoryManager.redo
    rw [if_pos (by simp; omega)]
    have hidx : m.currentIndex - 1 + 1 = m.currentIndex := by omega
    simp only [hidx]
  · rw [hcur, List.getElem?_eq_getElem htn]
    rfl

/-- Witness for C1 at a concrete two-snapshot state. -/
theorem undo_redo_returns_pre_undo_scene_witness :
    HistInv mEx ∧ 0 < mEx.currentIndex ∧
    ((mEx.undo.1.redo).2 = mEx.getCurrentState ∧ mEx.getCurrentState.isSome = true) :=
  ⟨by decide, by decide, undo_redo_returns_pre_undo_scene mEx (by decide) (by decide)⟩

/-- C10: every state reachable from the initial state by `addState`, `undo`,
`redo` and `clear` keeps the cursor in `[-1, history.length)` (so the cursor
is `-1` exactly when the history is empty), every `addState` leaves the cursor
at the last index, and `canUndo`/`canRedo` answer true exactly when
`undo`/`redo` would return a snapshot rather than `null`. -/
theorem history_reachable_invariants (cap : Nat) (ops : List HistOp)
    (m : HistoryManager) (hm : m = runHistOps (HistoryManager.init cap) ops) :
    HistInv m
    ∧ (m.history = [] → m.currentIndex = -1)
    ∧ (∀ es ts, (m.addState es ts).currentIndex =
        ((m.addState es ts).history.length : Int) - 1)
    ∧ (m.canUndo = true ↔ m.undo.2.isSome = true)
    ∧ (m.canRedo = true ↔ m.redo.2.isSome = true) := by
  subst hm
  have hinv := histInv_runOps _ ops (histInv_init cap)
  refine ⟨hinv, ?_, ?_, ?_, ?_⟩
  · intro h
    obtain ⟨h1, h2⟩ := hinv
    rw [h] at h2
    simp only [List.length_nil, Nat.cast_zero] at h2
    omega
  · intro es ts
    exact addState_cursor_last _ es ts hinv
  · exact canUndo_iff_undo_some _ hinv
  · exact canRedo_iff_redo_some _ hinv

/-- Witness for C10 on a concrete operation sequence. -/
theorem history_reachable_invariants_witness :
    HistInv (runHistOps (HistoryManager.init 50)
      [HistOp.add [elA] 0, HistOp.add [elA, elB] 1, HistOp.hundo])
    ∧ ((runHistOps (HistoryManager.init 50)
      [HistOp.add [elA] 0, HistOp.add [elA, elB] 1, HistOp.hundo]).canRedo = true ↔
        (runHistOps (HistoryManager.init 50)
      [HistOp.add [elA] 0, HistOp.add [elA, elB] 1, HistOp.hundo]).redo.2.isSome = true) := by
  have h := history_reachable_invariants 50
    [HistOp.add [elA] 0, HistOp.add [elA, elB] 1, HistOp.hundo] _ rfl
  exact ⟨h.1, h.2.2.2.2⟩


/-- One `addState` on a state whose cursor sits on the last snapshot:
the stored scenes become `chop1` of the old ones, and the cursor stays on
the last snapshot. -/
theorem addState_snoc (cap : Nat) (m : HistoryManager)
    (l : List (List CanvasElement)) (s : List CanvasElement) (ts : Nat)
    (hmax : m.maxHistorySize = cap)
    (hmap : m.history.map (·.elements) = l)
    (hidx : m.currentIndex = (l.length : Int) - 1)
    (hlen : l.length ≤ cap) :
    (m.addState s ts).maxHistorySize = cap
    ∧ (m.addState s ts).history.map (·.elements) = chop1 cap l s
    ∧ (m.addState s ts).currentIndex = ((chop1 cap l s).length : Int) - 1
    ∧ (chop1 cap l s).length ≤ cap := by
  have hhl : m.history.length = l.length := by
    rw [← hmap, List.length_map]
  have hple : ¬ ((m.currentIndex + 1 : Int) < 0) := by omega
  have htake : jsSliceTo m.history (m.currentIndex + 1) = m.history := by
    unfold jsSliceTo
    rw [if_neg hple]
    have hn : (m.currentIndex + 1).toNat = m.history.length := by omega
    rw [hn, List.take_length]
  simp only [HistoryManager.addState, htake]
  unfold chop1
  split
  · rename_i hgt'
    have hgt : l.length + 1 > cap := by
      rw [hmax] at hgt'
      simpa [hhl] using hgt'
    rw [if_pos hgt]
    refine ⟨hmax, ?_, ?_, ?_⟩
    · show ((m.history ++ [({ elements := s, timestamp := ts } : HistoryState)]).drop 1).map
          (fun x => x.elements) = (l ++ [s]).drop 1
      rw [List.map_drop]
      simp [hmap]
    · simp only [List.length_drop, List.length_append, List.length_cons,
        List.length_nil]
      omega
    · simp only [List.length_drop, List.length_append, List.length_cons,
        List.length_nil]
      omega
  · rename_i hle'
    have hle : ¬ (l.length + 1 > cap) := by
      rw [hmax] at hle'
      simpa [hhl] using hle'
    rw [if_neg hle]
    refine ⟨hmax, ?_, ?_, ?_⟩
    · simp [hmap]
    · simp only [List.length_append, List.length_cons, List.length_nil]
      omega
    · simp only [List.length_append, List.length_cons, List.length_nil]
      omega

/-- Folding `addState` over a list of scenes keeps the last `cap` of them
and leaves the cursor on the last snapshot. -/
theorem runAdds_spec (cap : Nat) (hcap : 1 ≤ cap) (ss : List (List CanvasElement)) :
    ∀ (m : HistoryManager) (l : List (List CanvasElement)),
      m.maxHistorySize = cap →
      m.history.map (·.elements) = l →
      m.currentIndex = (l.length : Int) - 1 →
      l.length ≤ cap →
      (runAdds m ss).maxHistorySize = cap
      ∧ (runAdds m ss).history.map (·.elements) =
          (l ++ ss).drop (l.length + ss.length - cap)
      ∧ (runAdds m ss).currentIndex =
          (((runAdds m ss).history.map (·.elements)).length : Int) - 1
      ∧ ((runAdds m ss).history.map (·.elements)).length ≤ cap := by
  induction ss with
  | nil =>
    intro m l hmax hmap hidx hlen
    have hdrop : l.length - cap = 0 := by omega
    refine ⟨hmax, ?_, ?_, ?_⟩
    · simpa [runAdds, hdrop] using hmap
    · simpa [runAdds, hmap] using hidx
    · simp [runAdds, hmap, hlen]
  | cons s ss ih =>
    intro m l hmax hmap hidx hlen
    obtain ⟨h1, h2, h3, h4⟩ := addState_snoc cap m l s 0 hmax hmap hidx hlen
    have hrun : runAdds m (s :: ss) = runAdds (m.addState s 0) ss := rfl
    obtain ⟨g1, g2, g3, g4⟩ := ih (m.addState s 0) (chop1 cap l s) h1 h2 h3 h4
    rw [hrun]
    refine ⟨g1, ?_, g3, g4⟩
    rw [g2]
    unfold chop1
    by_cases hgt : l.length + 1 > cap
    · rw [if_pos hgt]
      have hD : ((l ++ [s]).drop 1).length + ss.length - cap = ss.length := by
        simp only [List.length_drop, List.length_append, List.length_cons,
          List.length_nil]
        omega
      have hD2 : l.length + (s :: ss).length - cap = ss.length + 1 := by
        simp only [List.length_cons]
        omega
      rw [hD, hD2]
      have e1 : (l ++ [s]).drop 1 ++ ss = ((l ++ [s]) ++ ss).drop 1 :=
        (List.drop_append_of_le_length (by simp)).symm
      rw [e1, List.drop_drop]
      have e2 : (l ++ [s]) ++ ss = l ++ s :: ss := by simp
      rw [e2, Nat.add_comm ss.length 1]
    · rw [if_neg hgt]
      have e3 : (l ++ [s]).length + ss.length - cap =
          l.length + (s :: ss).length - cap := by
        simp only [List.length_append, List.length_cons, List.length_nil]
        omega
      have e2 : (l ++ [s]) ++ ss = l ++ s :: ss := by simp
      rw [e3, e2]

/-- Iterated `undo` decrements the cursor, clamped at `0`. -/
theorem undoN_cursor (m : HistoryManager) (h0 : 0 ≤ m.currentIndex) (k : Nat) :
    (undoN m k).currentIndex = max (m.currentIndex - k) 0 := by
  induction k with
  | zero =>
    simp only [undoN, Nat.cast_zero]
    omega
  | succ k ih =>
    rw [undoN]
    unfold HistoryManager.undo
    split
    · rename_i hpos
      show (undoN m k).currentIndex - 1 = _
      rw [ih] at hpos ⊢
      push_cast
      omega
    · rename_i hneg
      show (undoN m k).currentIndex = _
      rw [ih] at hneg ⊢
      push_cast
      omega

/-- Iterated `redo` increments the cursor, clamped at the last index. -/
theorem redoN_cursor (m : HistoryManager)
    (h0 : m.currentIndex ≤ (m.history.length : Int) - 1) (k : Nat) :
    (redoN m k).currentIndex = min (m.currentIndex + k) ((m.history.length : Int) - 1) := by
  induction k with
  | zero =>
    simp only [redoN, Nat.cast_zero]
    omega
  | succ k ih =>
    rw [redoN]
    unfold HistoryManager.redo
    rw [redoN_history m k] at *
    split
    · rename_i hlt
      show (redoN m k).currentIndex + 1 = _
      rw [ih] at hlt ⊢
      push_cast
      omega
    · rename_i hge
      show (redoN m k).currentIndex = _
      rw [ih] at hge ⊢
      push_cast
      omega

/-- C2: with capacity `cap ≥ 1`, after `cap + 1` calls to `addState` from the
empty engine exactly `cap` snapshots remain (the first added has been
evicted), the cursor denotes the most recently added snapshot, and no number
of `undo()` calls can ever return the first (evicted) snapshot. -/
theorem capacity_eviction (cap : Nat) (hcap : 1 ≤ cap)
    (ss : List (List CanvasElement)) (hlen : ss.length = cap + 1)
    (m : HistoryManager) (hm : m = runAdds (HistoryManager.init cap) ss) :
    m.history.length = cap
    ∧ m.history.map (·.elements) = ss.drop 1
    ∧ m.getCurrentState = ss.getLast?
    ∧ (∀ k r, ((undoN m k).undo).2 = some r → r ∈ ss.drop 1)
    ∧ (∀ k s0, ss.head? = some s0 → s0 ∉ ss.drop 1 →
        ((undoN m k).undo).2 ≠ some s0) := by
  obtain ⟨g1, g2, g3, g4⟩ := runAdds_spec cap hcap ss (HistoryManager.init cap) []
    rfl rfl (by simp [HistoryManager.init]) (by simp)
  rw [← hm] at g1 g2 g3 g4
  have hmap : m.history.map (·.elements) = ss.drop 1 := by
    rw [g2]
    have hc : List.length ([] : List (List CanvasElement)) + ss.length - cap = 1 := by
      simp only [List.length_nil]
      omega
    rw [hc]
    simp
  have h1 : m.history.length = cap := by
    have hlm := congrArg List.length hmap
    rw [List.length_map, List.length_drop, hlen] at hlm
    omega
  have hidx2 : m.currentIndex = (cap : Int) - 1 := by
    rw [hmap] at g3
    rw [g3, List.length_drop, hlen]
    push_cast
    omega
  have key : ∀ k r, ((undoN m k).undo).2 = some r → r ∈ ss.drop 1 := by
    intro k r h
    have hmem := undo_result_mem (undoN m k) r h
    rw [undoN_history, hmap] at hmem
    exact hmem
  refine ⟨h1, hmap, ?_, key, ?_⟩
  · unfold HistoryManager.getCurrentState
    have hg : 0 ≤ m.currentIndex ∧ m.currentIndex < (m.history.length : Int) := by
      rw [hidx2, h1]
      omega
    rw [if_pos hg]
    have htn : m.currentIndex.toNat = cap - 1 := by omega
    rw [htn]
    have hgm : (m.history[cap - 1]?).map (·.elements) =
        (m.history.map (·.elements))[cap - 1]? := (List.getElem?_map _ _ _).symm
    rw [hgm, hmap, List.getElem?_drop, List.getLast?_eq_getElem?, hlen]
    congr 1
    omega
  · intro k s0 hh hnot hcontra
    exact hnot (key k s0 hcontra)

/-- Witness for C2: capacity `2`, three edits; the first scene `[elA]` can
never come back from `undo`. -/
theorem capacity_eviction_witness :
    (runAdds (HistoryManager.init 2) [[elA], [elB], [elC]]).history.length = 2
    ∧ (HistoryManager.undo
        (undoN (runAdds (HistoryManager.init 2) [[elA], [elB], [elC]]) 3)).2
          ≠ some [elA] := by
  have h := capacity_eviction 2 (by omega) [[elA], [elB], [elC]] (by decide) _ rfl
  exact ⟨h.1, h.2.2.2.2 3 [elA] rfl (by decide)⟩

/-- C3 counterexample: two committed edits `[elA]` then `[elA, elB]` on a
fresh engine of capacity 50; after `undo()` twice and `redo()` twice the
current scene is `[elA, elB]` (the scene after the *last* edit), not the
scene `[elA]` right after the first edit, so the claim fails at `N = 2`. -/
theorem undoN_redoN_not_first_edit :
    HistoryManager.getCurrentState
      (redoN (undoN (runAdds (HistoryManager.init 50) [[elA], [elA, elB]]) 2) 2)
      ≠ some [elA] := by
  decide

/-- C3 amended: for any sequence of `N` committed edits (`1 ≤ N ≤ capacity`)
on an initially empty engine, `undo()` `N` times then `redo()` `N` times
leaves the current scene element-wise identical to the scene right after the
*last* edit. -/
theorem undoN_redoN_returns_last_edit (cap : Nat) (hcap : 1 ≤ cap)
    (ss : List (List CanvasElement)) (hne : ss ≠ []) (hlen : ss.length ≤ cap)
    (m : HistoryManager) (hm : m = runAdds (HistoryManager.init cap) ss) :
    (redoN (undoN m ss.length) ss.length).getCurrentState = ss.getLast? := by
  obtain ⟨g1, g2, g3, g4⟩ := runAdds_spec cap hcap ss (HistoryManager.init cap) []
    rfl rfl (by simp [HistoryManager.init]) (by simp)
  rw [← hm] at g1 g2 g3 g4
  have hmap : m.history.map (·.elements) = ss := by
    rw [g2]
    have hc : List.length ([] : List (List CanvasElement)) + ss.length - cap = 0 := by
      simp only [List.length_nil]
      omega
    rw [hc]
    simp
  have hN : 1 ≤ ss.length := List.length_pos.mpr hne
  have hhl : m.history.length = ss.length := by
    have hlm := congrArg List.length hmap
    rwa [List.length_map] at hlm
  have hidx : m.currentIndex = (ss.length : Int) - 1 := by
    rw [hmap] at g3
    rw [g3]
  have hu : (undoN m ss.length).currentIndex = 0 := by
    rw [undoN_cursor m (by omega) ss.length]
    omega
  have huh : (undoN m ss.length).history = m.history := undoN_history m ss.length
  have hr : (redoN (undoN m ss.length) ss.length).currentIndex =
      (ss.length : Int) - 1 := by
    rw [redoN_cursor (undoN m ss.length) (by rw [hu, huh, hhl]; omega) ss.length]
    rw [hu, huh, hhl]
    omega
  have hrh : (redoN (undoN m ss.length) ss.length).history = m.history := by
    rw [redoN_history, undoN_history]
  unfold HistoryManager.getCurrentState
  have hg : 0 ≤ (redoN (undoN m ss.length) ss.length).currentIndex ∧
      (redoN (undoN m ss.length) ss.length).currentIndex <
        ((redoN (undoN m ss.length) ss.length).history.length : Int) := by
    rw [hr, hrh, hhl]
    omega
  rw [if_pos hg, hrh]
  have htn : (redoN (undoN m ss.length) ss.length).currentIndex.toNat =
      ss.length - 1 := by
    rw [hr]
    omega
  rw [htn]
  have hgm : (m.history[ss.length - 1]?).map (·.elements) =
      (m.history.map (·.elements))[ss.length - 1]? := (List.getElem?_map _ _ _).symm
  rw [hgm, hmap, List.getLast?_eq_getElem?]

/-- Witness for the amended C3 at `N = 2`, capacity 50. -/
theorem undoN_redoN_returns_last_edit_witness :
    (redoN (undoN (runAdds (HistoryManager.init 50) [[elA], [elA, elB]]) 2) 2).getCurrentState
      = ([[elA], [elA, elB]] : List (List CanvasElement)).getLast? := by
  have h := undoN_redoN_returns_last_edit 50 (by omega) [[elA], [elA, elB]]
    (by decide) (by decide) _ rfl
  simpa using h

/-! ## Interaction-layer lemmas -/

/-- Mouse moves do nothing under the select, text and eraser tools. -/
theorem move_inert (tool : Tool)
    (htool : tool = .select ∨ tool = .text ∨ tool = .eraser)
    (p : Point) (s : WhiteboardState) : handleMouseMove tool p s = s := by
  rcases htool with h | h | h <;> subst h <;> unfold handleMouseMove <;>
    split <;> rfl

/-- Folded mouse moves do nothing under the select, text and eraser tools. -/
theorem foldl_move_inert (tool : Tool)
    (htool : tool = .select ∨ tool = .text ∨ tool = .eraser)
    (moves : List Point) (s : WhiteboardState) :
    moves.foldl (fun s p => handleMouseMove tool p s) s = s := by
  induction moves generalizing s with
  | nil => rfl
  | cons a moves ih => rw [List.foldl_cons, move_inert tool htool a s, ih]

/-- While drawing with the pen, each move appends the pointer position to the
current path and changes nothing else. -/
theorem foldl_move_pen (moves : List Point) :
    ∀ s : WhiteboardState, s.isDrawing = true →
      moves.foldl (fun s p => handleMouseMove .pen p s) s =
        { s with currentPath := s.currentPath ++ moves } := by
  induction moves with
  | nil =>
    intro s hs
    simp
  | cons a moves ih =>
    intro s hs
    rw [List.foldl_cons]
    have hstep : handleMouseMove .pen a s =
        { s with currentPath := s.currentPath ++ [a] } := by
      unfold handleMouseMove
      rw [hs]
      simp
    rw [hstep, ih { s with currentPath := s.currentPath ++ [a] } hs]
    simp

/-- While dragging a shape, the folded moves only replace the last element
(keeping the prefix, the drawing flag and the path). -/
theorem foldl_move_shape (tool : Tool)
    (htool : tool = .rectangle ∨ tool = .circle) (moves : List Point) :
    ∀ (s : WhiteboardState) (es : List CanvasElement) (e : CanvasElement),
      s.isDrawing = true → s.elements = es ++ [e] →
      ∃ e', moves.foldl (fun s p => handleMouseMove tool p s) s =
        { s with elements := es ++ [e'] } := by
  induction moves with
  | nil =>
    intro s es e hs he
    refine ⟨e, ?_⟩
    rw [← he]
    rfl
  | cons a moves ih =>
    intro s es e hs he
    rw [List.foldl_cons]
    have hlast : s.elements.getLast? = some e := by
      rw [he]
      exact List.getLast?_concat es
    have hdrop : s.elements.dropLast = es := by
      rw [he]
      exact List.dropLast_concat
    have hstep : handleMouseMove tool a s =
        { s with elements :=
            es ++ [{ e with dimensions := some ⟨abs (a.x - e.position.x), abs (a.y - e.position.y)⟩ }] } := by
      rcases htool with h | h <;> subst h <;>
        simp [handleMouseMove, hs, hlast, hdrop]
    rw [hstep]
    exact ih _ es _ hs rfl

/-- A select-tool gesture only toggles the drawing flag and never notifies. -/
theorem runGesture_select (st : WhiteboardSettings) (p0 : Point)
    (pr : Option String) (moves : List Point) (now : Nat) (s : WhiteboardState) :
    runGesture .select st p0 pr moves now s =
      ({ s with isDrawing := false }, []) := by
  have hd : handleMouseDown .select st p0 pr now s =
      ({ s with isDrawing := true }, []) := rfl
  simp only [runGesture, hd]
  rw [foldl_move_inert .select (Or.inl rfl) moves]
  simp [handleMouseUp]

/-- A pen gesture with no move commits nothing; with at least one move it
commits exactly one path element and notifies once with the new scene. -/
theorem runGesture_pen (st : WhiteboardSettings) (p0 : Point) (pr : Option String)
    (moves : List Point) (now : Nat) (s : WhiteboardState) :
    runGesture .pen st p0 pr moves now s =
      if moves = [] then ({ s with isDrawing := false, currentPath := [p0] }, [])
      else
        ({ s with
            isDrawing := false,
            elements := s.elements ++ [mkPathElement st (p0 :: moves) now],
            currentPath := [] },
          [s.elements ++ [mkPathElement st (p0 :: moves) now]]) := by
  have hd : handleMouseDown .pen st p0 pr now s =
      ({ s with isDrawing := true, currentPath := [p0] }, []) := rfl
  have hfold := foldl_move_pen moves { s with isDrawing := true, currentPath := [p0] } rfl
  simp only [runGesture, hd]
  rw [hfold]
  cases moves with
  | nil => simp [handleMouseUp]
  | cons a ms =>
    have hgt : (([p0] ++ a :: ms : List Point)).length > 1 := by simp
    simp only [handleMouseUp]
    simp [hgt, mkPathElement]

/-- A text gesture with an empty or cancelled prompt changes nothing and
never notifies. -/
theorem runGesture_text_skip (st : WhiteboardSettings) (p0 : Point)
    (pr : Option String) (moves : List Point) (now : Nat) (s : WhiteboardState)
    (hpr : pr = none ∨ pr = some "") :
    runGesture .text st p0 pr moves now s = ({ s with isDrawing := false }, []) := by
  rcases hpr with h | h <;> subst h
  · have hd : handleMouseDown .text st p0 none now s =
        ({ s with isDrawing := true }, []) := rfl
    simp only [runGesture, hd]
    rw [foldl_move_inert .text (Or.inr (Or.inl rfl)) moves]
    simp [handleMouseUp]
  · have hd : handleMouseDown .text st p0 (some "") now s =
        ({ s with isDrawing := true }, []) := rfl
    simp only [runGesture, hd]
    rw [foldl_move_inert .text (Or.inr (Or.inl rfl)) moves]
    simp [handleMouseUp]

/-- A text gesture with a non-empty prompt result commits exactly one text
element anchored at the press position and notifies once, immediately. -/
theorem runGesture_text_commit (st : WhiteboardSettings) (p0 : Point)
    (t : String) (moves : List Point) (now : Nat) (s : WhiteboardState)
    (ht : t ≠ "") :
    runGesture .text st p0 (some t) moves now s =
      ({ s with
          isDrawing := false,
          elements := s.elements ++ [mkTextElement st p0 t now] },
        [s.elements ++ [mkTextElement st p0 t now]]) := by
  have hd : handleMouseDown .text st p0 (some t) now s =
      ({ s with
          isDrawing := true,
          elements := s.elements ++ [mkTextElement st p0 t now] },
        [s.elements ++ [mkTextElement st p0 t now]]) := by
    simp [handleMouseDown, ht]
  simp only [runGesture, hd]
  rw [foldl_move_inert .text (Or.inr (Or.inl rfl)) moves]
  simp [handleMouseUp]

/-- An eraser gesture whose press hits some element removes every element
sharing the first (paint-order) hit's id and notifies once, immediately. -/
theorem runGesture_eraser_hit (st : WhiteboardSettings) (p0 : Point)
    (pr : Option String) (moves : List Point) (now : Nat) (s : WhiteboardState)
    (e : CanvasElement)
    (hfind : s.elements.find? (fun el => isPointInElement p0 el) = some e) :
    runGesture .eraser st p0 pr moves now s =
      ({ s with
          isDrawing := false,
          elements := s.elements.filter (fun el => el.id ≠ e.id) },
        [s.elements.filter (fun el => el.id ≠ e.id)]) := by
  have hd : handleMouseDown .eraser st p0 pr now s =
      ({ s with
          isDrawing := true,
          elements := s.elements.filter (fun el => el.id ≠ e.id) },
        [s.elements.filter (fun el => el.id ≠ e.id)]) := by
    simp [handleMouseDown, hfind]
  simp only [runGesture, hd]
  rw [foldl_move_inert .eraser (Or.inr (Or.inr rfl)) moves]
  simp [handleMouseUp]

/-- An eraser gesture whose press hits nothing changes nothing and never
notifies. -/
theorem runGesture_eraser_miss (st : WhiteboardSettings) (p0 : Point)
    (pr : Option String) (moves : List Point) (now : Nat) (s : WhiteboardState)
    (hfind : s.elements.find? (fun el => isPointInElement p0 el) = none) :
    runGesture .eraser st p0 pr moves now s = ({ s with isDrawing := false }, []) := by
  have hd : handleMouseDown .eraser st p0 pr now s =
      ({ s with isDrawing := true }, []) := by
    simp [handleMouseDown, hfind]
  simp only [runGesture, hd]
  rw [foldl_move_inert .eraser (Or.inr (Or.inr rfl)) moves]
  simp [handleMouseUp]

/-- A shape gesture appends exactly one element (whose dimensions the moves
may have rewritten) and notifies once, at release, with the final scene. -/
theorem runGesture_shape (tool : Tool)
    (htool : tool = .rectangle ∨ tool = .circle) (st : WhiteboardSettings)
    (p0 : Point) (pr : Option String) (moves : List Point) (now : Nat)
    (s : WhiteboardState) :
    ∃ e', runGesture tool st p0 pr moves now s =
      ({ s with
          isDrawing := false, elements := s.elements ++ [e'] },
        [s.elements ++ [e']]) := by
  rcases htool with h | h <;> subst h
  · have hd : handleMouseDown .rectangle st p0 pr now s =
        ({ s with
            isDrawing := true,
            elements := s.elements ++ [mkShapeElement .rectangle st p0 now] }, []) := rfl
    obtain ⟨e', he'⟩ := foldl_move_shape .rectangle (Or.inl rfl) moves
      { s with
          isDrawing := true,
          elements := s.elements ++ [mkShapeElement .rectangle st p0 now] }
      s.elements (mkShapeElement .rectangle st p0 now) rfl rfl
    refine ⟨e', ?_⟩
    simp only [runGesture, hd]
    rw [he']
    simp [handleMouseUp]
  · have hd : handleMouseDown .circle st p0 pr now s =
        ({ s with
            isDrawing := true,
            elements := s.elements ++ [mkShapeElement .circle st p0 now] }, []) := rfl
    obtain ⟨e', he'⟩ := foldl_move_shape .circle (Or.inr rfl) moves
      { s with
          isDrawing := true,
          elements := s.elements ++ [mkShapeElement .circle st p0 now] }
      s.elements (mkShapeElement .circle st p0 now) rfl rfl
    refine ⟨e', ?_⟩
    simp only [runGesture, hd]
    rw [he']
    simp [handleMouseUp]

/-- C5: for every gesture (press, any number of moves, release) under any
tool, if the gesture changes the persisted element sequence then exactly one
scene-changed notification fires during the gesture, and it carries the full
final sequence — regardless of the number of intermediate move events. -/
theorem gesture_notifies_exactly_once (tool : Tool) (st : WhiteboardSettings)
    (p0 : Point) (promptRes : Option String) (moves : List Point) (now : Nat)
    (s : WhiteboardState)
    (hchanged : (runGesture tool st p0 promptRes moves now s).1.elements ≠ s.elements) :
    (runGesture tool st p0 promptRes moves now s).2 =
      [(runGesture tool st p0 promptRes moves now s).1.elements] := by
  cases tool with
  | select =>
    rw [runGesture_select] at hchanged
    exact absurd rfl hchanged
  | pen =>
    rw [runGesture_pen] at hchanged ⊢
    cases moves with
    | nil => exact absurd rfl hchanged
    | cons a ms => rfl
  | rectangle =>
    obtain ⟨e', he'⟩ := runGesture_shape .rectangle (Or.inl rfl) st p0 promptRes
      moves now s
    rw [he']
  | circle =>
    obtain ⟨e', he'⟩ := runGesture_shape .circle (Or.inr rfl) st p0 promptRes
      moves now s
    rw [he']
  | text =>
    cases promptRes with
    | none =>
      rw [runGesture_text_skip st p0 none moves now s (Or.inl rfl)] at hchanged
      exact absurd rfl hchanged
    | some t =>
      by_cases ht : t = ""
      · subst ht
        rw [runGesture_text_skip st p0 (some "") moves now s (Or.inr rfl)] at hchanged
        exact absurd rfl hchanged
      · rw [runGesture_text_commit st p0 t moves now s ht]
  | eraser =>
    cases hfind : s.elements.find? (fun el => isPointInElement p0 el) with
    | none =>
      rw [runGesture_eraser_miss st p0 promptRes moves now s hfind] at hchanged
      exact absurd rfl hchanged
    | some e =>
      rw [runGesture_eraser_hit st p0 promptRes moves now s e hfind]

/-- Witness for C5: a concrete pen gesture with one move commits a path and
notifies exactly once with the final scene. -/
theorem gesture_notifies_exactly_once_witness :
    (runGesture .pen stDefault ⟨0, 0⟩ none [⟨1, 1⟩] 7 wbInit).1.elements
        ≠ wbInit.elements
    ∧ (runGesture .pen stDefault ⟨0, 0⟩ none [⟨1, 1⟩] 7 wbInit).2 =
        [(runGesture .pen stDefault ⟨0, 0⟩ none [⟨1, 1⟩] 7 wbInit).1.elements] :=
  ⟨by decide,
    gesture_notifies_exactly_once .pen stDefault ⟨0, 0⟩ none [⟨1, 1⟩] 7 wbInit
      (by decide)⟩

/-- Removing by the id of an element that `find?` located removes exactly one
element when the ids in the scene are pairwise distinct. -/
theorem filter_ne_id_length (q : CanvasElement → Bool) :
    ∀ (es : List CanvasElement) (e : CanvasElement),
      es.find? q = some e → (es.map (·.id)).Nodup →
      (es.filter (fun el => el.id ≠ e.id)).length + 1 = es.length := by
  intro es
  induction es with
  | nil =>
    intro e h
    simp at h
  | cons a es ih =>
    intro e hfind hnodup
    rw [List.map_cons] at hnodup
    obtain ⟨hhead, htail⟩ := List.nodup_cons.mp hnodup
    by_cases hqa : q a = true
    · rw [List.find?_cons_of_pos _ hqa] at hfind
      injection hfind with he
      subst he
      rw [List.filter_cons]
      have hcond : ¬ ((decide (a.id ≠ a.id)) = true) := by simp
      rw [if_neg hcond]
      have hes : es.filter (fun el => el.id ≠ a.id) = es := by
        apply List.filter_eq_self.mpr
        intro el hel
        have hne : el.id ≠ a.id := by
          intro hcontra
          exact hhead (hcontra ▸ List.mem_map_of_mem (·.id) hel)
        simpa using hne
      rw [hes]
      simp
    · rw [List.find?_cons_of_neg _ (by simpa using hqa)] at hfind
      have hmem := List.mem_of_find?_eq_some hfind
      have hne : a.id ≠ e.id := by
        intro hcontra
        exact hhead (hcontra ▸ List.mem_map_of_mem (·.id) hmem)
      have hcond : (decide (a.id ≠ e.id)) = true := by simpa using hne
      rw [List.filter_cons, if_pos hcond]
      have hih := ih e hfind htail
      simp only [List.length_cons]
      omega

/-- C4 counterexample: two overlapping rectangles both contain the press
position `(5,5)`; the claim demands that the topmost (latest-appended)
element `rHit2` be removed, leaving `[rHit1]`, but the code hit-tests with
`elements.find` in paint order and removes the bottommost `rHit1`, leaving
`[rHit2]`. -/
theorem eraser_removes_bottommost_counterexample :
    isPointInElement ⟨5, 5⟩ rHit1 = true
    ∧ isPointInElement ⟨5, 5⟩ rHit2 = true
    ∧ (handleMouseDown .eraser stDefault ⟨5, 5⟩ none 0
        { wbInit with elements := [rHit1, rHit2] }).1.elements = [rHit2]
    ∧ ([rHit2] : List CanvasElement) ≠ [rHit1] := by
  have h1 : isPointInElement ⟨5, 5⟩ rHit1 = true := by
    norm_num [isPointInElement, rHit1, elA, jsOrQ]
  have h2 : isPointInElement ⟨5, 5⟩ rHit2 = true := by
    norm_num [isPointInElement, rHit2, elA, jsOrQ]
  have hfind : ([rHit1, rHit2] : List CanvasElement).find?
      (fun el => isPointInElement ⟨5, 5⟩ el) = some rHit1 :=
    List.find?_cons_of_pos _ h1
  have hd : (handleMouseDown .eraser stDefault ⟨5, 5⟩ none 0
      { wbInit with elements := [rHit1, rHit2] }).1.elements =
      ([rHit1, rHit2] : List CanvasElement).filter (fun el => el.id ≠ rHit1.id) := by
    simp [handleMouseDown, hfind]
  refine ⟨h1, h2, ?_, by decide⟩
  rw [hd]
  decide

/-- C4 amended: an eraser press hit-tests the elements in paint order
(bottommost first) and removes every element sharing the id of the first hit
(exactly one when the scene's ids are pairwise distinct), notifying
immediately with the updated sequence; a press that hits nothing leaves the
scene unchanged and does not notify; eraser moves and releases never change
the scene and never notify. -/
theorem eraser_press_spec (st : WhiteboardSettings) (p : Point) (now : Nat)
    (s : WhiteboardState) :
    (∀ e, s.elements.find? (fun el => isPointInElement p el) = some e →
      (handleMouseDown .eraser st p none now s).1.elements =
          s.elements.filter (fun el => el.id ≠ e.id)
      ∧ (handleMouseDown .eraser st p none now s).2 =
          [(handleMouseDown .eraser st p none now s).1.elements]
      ∧ ((s.elements.map (·.id)).Nodup →
          (handleMouseDown .eraser st p none now s).1.elements.length + 1 =
            s.elements.length))
    ∧ (s.elements.find? (fun el => isPointInElement p el) = none →
      (handleMouseDown .eraser st p none now s).1.elements = s.elements
      ∧ (handleMouseDown .eraser st p none now s).2 = [])
    ∧ (handleMouseMove .eraser p s).elements = s.elements
    ∧ (handleMouseUp .eraser st now s).1.elements = s.elements
    ∧ (handleMouseUp .eraser st now s).2 = [] := by
  refine ⟨?_, ?_, ?_, ?_, ?_⟩
  · intro e hfind
    have hd : handleMouseDown .eraser st p none now s =
        ({ s with
            isDrawing := true,
            elements := s.elements.filter (fun el => el.id ≠ e.id) },
          [s.elements.filter (fun el => el.id ≠ e.id)]) := by
      simp [handleMouseDown, hfind]
    rw [hd]
    exact ⟨rfl, rfl, fun hnodup => filter_ne_id_length _ s.elements e hfind hnodup⟩
  · intro hfind
    have hd : handleMouseDown .eraser st p none now s =
        ({ s with isDrawing := true }, []) := by
      simp [handleMouseDown, hfind]
    rw [hd]
    exact ⟨rfl, rfl⟩
  · rw [move_inert .eraser (Or.inr (Or.inr rfl))]
  · unfold handleMouseUp
    split <;> rfl
  · unfold handleMouseUp
    split <;> rfl

/-- Witness for the amended C4 at a concrete two-element scene. -/
theorem eraser_press_spec_witness :
    (handleMouseDown .eraser stDefault ⟨5, 5⟩ none 0
        { wbInit with elements := [rHit1, rHit2] }).1.elements =
      ([rHit1, rHit2] : List CanvasElement).filter (fun el => el.id ≠ rHit1.id)
    ∧ (handleMouseDown .eraser stDefault ⟨5, 5⟩ none 0
        { wbInit with elements := [rHit1, rHit2] }).2 =
      [(handleMouseDown .eraser stDefault ⟨5, 5⟩ none 0
        { wbInit with elements := [rHit1, rHit2] }).1.elements] := by
  have h1 : isPointInElement ⟨5, 5⟩ rHit1 = true := by
    norm_num [isPointInElement, rHit1, elA, jsOrQ]
  have h := (eraser_press_spec stDefault ⟨5, 5⟩ 0
    { wbInit with elements := [rHit1, rHit2] }).1 rHit1
      (List.find?_cons_of_pos _ h1)
  exact ⟨h.1, h.2.1⟩

/-- C6: during a rectangle or circle drag, every move event sets the
in-progress (last) element's dimensions to the absolute deltas between the
current pointer position and the element's anchor — recomputed from the
anchor each time, never accumulated — and in particular press at (10,10),
move to (50,30), then move to (20,15) commits dimensions (10,5). -/
theorem shape_drag_anchor_relative (tool : Tool)
    (htool : tool = .rectangle ∨ tool = .circle) (s : WhiteboardState)
    (hdraw : s.isDrawing = true) (es : List CanvasElement) (e : CanvasElement)
    (he : s.elements = es ++ [e]) (pos : Point) :
    (handleMouseMove tool pos s).elements =
      es ++ [{ e with dimensions := some ⟨abs (pos.x - e.position.x), abs (pos.y - e.position.y)⟩ }]
    ∧ (runGesture .rectangle stDefault ⟨10, 10⟩ none [⟨50, 30⟩, ⟨20, 15⟩] 0
        wbInit).1.elements.map (·.dimensions) = [some ⟨10, 5⟩] := by
  constructor
  · have hlast : s.elements.getLast? = some e := by
      rw [he]
      exact List.getLast?_concat es
    have hdrop : s.elements.dropLast = es := by
      rw [he]
      exact List.dropLast_concat
    rcases htool with h | h <;> subst h <;>
      simp [handleMouseMove, hdraw, hlast, hdrop]
  · have a1 : |(50:ℚ) - 10| = 40 := by
      rw [show (50:ℚ) - 10 = (40:ℚ) from by norm_num]
      exact abs_of_nonneg (by norm_num)
    have a2 : |(30:ℚ) - 10| = 20 := by
      rw [show (30:ℚ) - 10 = (20:ℚ) from by norm_num]
      exact abs_of_nonneg (by norm_num)
    have a3 : |(20:ℚ) - 10| = 10 := by
      rw [show (20:ℚ) - 10 = (10:ℚ) from by norm_num]
      exact abs_of_nonneg (by norm_num)
    have a4 : |(15:ℚ) - 10| = 5 := by
      rw [show (15:ℚ) - 10 = (5:ℚ) from by norm_num]
      exact abs_of_nonneg (by norm_num)
    simp [runGesture, handleMouseDown, handleMouseMove, handleMouseUp,
      mkShapeElement, wbInit, stDefault, a1, a2, a3, a4]

/-- Witness for C6 on a concrete one-element scene. -/
theorem shape_drag_anchor_relative_witness :
    (handleMouseMove .rectangle ⟨3, 4⟩
        { wbInit with isDrawing := true, elements := [elA] }).elements =
      [] ++ [{ elA with dimensions := some ⟨abs ((3:ℚ) - elA.position.x), abs ((4:ℚ) - elA.position.y)⟩ }] :=
  (shape_drag_anchor_relative .rectangle (Or.inl rfl)
    { wbInit with isDrawing := true, elements := [elA] } rfl [] elA rfl ⟨3, 4⟩).1

/-- C7 counterexample: `rect0` stores dimensions `(0, 0)` at anchor `(0, 0)`;
the claim says the point `anchor + (width+1, height+1) = (1, 1)` is never a
hit, but the `|| 100` fallback for the falsy stored `0` makes the code treat
the box as 100×100, so `(1, 1)` is a hit. -/
theorem rect_hit_zero_dims_counterexample :
    rect0.dimensions = some ⟨0, 0⟩
    ∧ rect0.position = ⟨0, 0⟩
    ∧ isPointInElement ⟨0 + 0 + 1, 0 + 0 + 1⟩ rect0 = true := by
  refine ⟨rfl, rfl, ?_⟩
  norm_num [isPointInElement, rect0, elA, jsOrQ]

/-- C7 amended: for a rectangle with stored dimensions, each zero stored
dimension falls back to 100; when both stored dimensions are strictly
positive the hit-test succeeds exactly on the axis-aligned box from the
anchor to anchor + dimensions, and the point `anchor + (w+1, h+1)` is never a
hit; the anchor itself is always a hit (for any nonnegative stored
dimensions, zero included). -/
theorem rect_hit_test_spec (el : CanvasElement) (w h : ℚ)
    (htype : el.type = .rectangle) (hd : el.dimensions = some ⟨w, h⟩)
    (hw : 0 ≤ w) (hh : 0 ≤ h) (p : Point) :
    (0 < w → 0 < h →
      (isPointInElement p el = true ↔
        (el.position.x ≤ p.x ∧ p.x ≤ el.position.x + w ∧
         el.position.y ≤ p.y ∧ p.y ≤ el.position.y + h)))
    ∧ isPointInElement el.position el = true
    ∧ (0 < w → 0 < h →
        isPointInElement ⟨el.position.x + w + 1, el.position.y + h + 1⟩ el = false) := by
  have hwv : jsOrQ (el.dimensions.map (·.width)) 100 = if w = 0 then 100 else w := by
    rw [hd]
    rfl
  have hhv : jsOrQ (el.dimensions.map (·.height)) 100 = if h = 0 then 100 else h := by
    rw [hd]
    rfl
  refine ⟨?_, ?_, ?_⟩
  · intro hw0 hh0
    simp only [isPointInElement, htype, hwv, hhv, if_neg (ne_of_gt hw0),
      if_neg (ne_of_gt hh0), decide_eq_true_eq]
  · simp only [isPointInElement, htype, hwv, hhv, decide_eq_true_eq]
    refine ⟨le_refl _, ?_, le_refl _, ?_⟩
    · split <;> linarith
    · split <;> linarith
  · intro hw0 hh0
    simp only [isPointInElement, htype, hwv, hhv, if_neg (ne_of_gt hw0),
      if_neg (ne_of_gt hh0), decide_eq_false_iff_not]
    intro hcon
    obtain ⟨c1, c2, c3, c4⟩ := hcon
    linarith

/-- Witness for the amended C7 at the concrete rectangle `elA`. -/
theorem rect_hit_test_spec_witness :
    isPointInElement elA.position elA = true
    ∧ isPointInElement ⟨elA.position.x + 1 + 1, elA.position.y + 1 + 1⟩ elA = false := by
  have h := rect_hit_test_spec elA 1 1 rfl rfl (by norm_num) (by norm_num) ⟨0, 0⟩
  exact ⟨h.2.1, h.2.2 (by norm_num) (by norm_num)⟩

/-- C8 counterexample: the prompt result `" "` (whitespace-only, non-empty)
is truthy for `if (text)`, so the code commits a text element — the claim
that whitespace-only entries are silently discarded fails. -/
theorem text_whitespace_committed_counterexample :
    (handleMouseDown .text stDefault ⟨3, 4⟩ (some " ") 0 wbInit).1.elements
      = [mkTextElement stDefault ⟨3, 4⟩ " " 0]
    ∧ (handleMouseDown .text stDefault ⟨3, 4⟩ (some " ") 0 wbInit).1.elements ≠ [] := by
  decide

/-- C8 amended: a text-tool press commits exactly when `prompt` returns a
non-empty string (whitespace included): the element is anchored at the press
position, carries the entered string, and the notification fires immediately;
an empty string or a cancelled prompt commits nothing and never notifies. -/
theorem text_commit_spec (st : WhiteboardSettings) (p : Point) (now : Nat)
    (s : WhiteboardState) :
    (∀ t, t ≠ "" →
      (handleMouseDown .text st p (some t) now s).1.elements
          = s.elements ++ [mkTextElement st p t now]
      ∧ (mkTextElement st p t now).position = p
      ∧ (mkTextElement st p t now).text = some t
      ∧ (handleMouseDown .text st p (some t) now s).2
          = [s.elements ++ [mkTextElement st p t now]])
    ∧ (handleMouseDown .text st p (some "") now s).1.elements = s.elements
    ∧ (handleMouseDown .text st p (some "") now s).2 = []
    ∧ (handleMouseDown .text st p none now s).1.elements = s.elements
    ∧ (handleMouseDown .text st p none now s).2 = [] := by
  refine ⟨?_, rfl, rfl, rfl, rfl⟩
  intro t ht
  have hd : handleMouseDown .text st p (some t) now s =
      ({ s with
          isDrawing := true,
          elements := s.elements ++ [mkTextElement st p t now] },
        [s.elements ++ [mkTextElement st p t now]]) := by
    simp [handleMouseDown, ht]
  rw [hd]
  exact ⟨rfl, rfl, rfl, rfl⟩

/-- Witness for the amended C8 at a concrete press. -/
theorem text_commit_spec_witness :
    (handleMouseDown .text stDefault ⟨3, 4⟩ (some "hi") 0 wbInit).1.elements
      = wbInit.elements ++ [mkTextElement stDefault ⟨3, 4⟩ "hi" 0]
    ∧ (handleMouseDown .text stDefault ⟨3, 4⟩ none 0 wbInit).1.elements
      = wbInit.elements := by
  have h := text_commit_spec stDefault ⟨3, 4⟩ 0 wbInit
  exact ⟨(h.1 "hi" (by decide)).1, h.2.2.2.1⟩

/-- C9 counterexample: a committed text element is rendered with the
*current* font-size setting (the code reads `settings.fontSize` at paint
time and elements store no font size), so changing the font size after
creation changes how the existing element is rendered. -/
theorem text_render_depends_on_current_fontSize :
    drawElement stBig tElEx ≠ drawElement stDefault tElEx
    ∧ drawElement stDefault tElEx = [DrawCmd.fillText "hi" ⟨3, 4⟩ 16 "#374151"]
    ∧ drawElement stBig tElEx = [DrawCmd.fillText "hi" ⟨3, 4⟩ 32 "#374151"] := by
  decide

/-- C9 amended: stroke color, stroke width and fill color are captured at
creation and immutable — for elements that store them (as every element the
handlers create does for the fields its kind renders with), the paint
commands are independent of the current settings for path, rectangle and
circle elements; but a text element's rendering always uses the *current*
font-size setting, so font-size changes do affect existing text elements. -/
theorem style_capture_spec (s1 s2 : WhiteboardSettings) (el : CanvasElement)
    (c : String) (lw : ℚ)
    (hc : el.color = some c) (hcne : c ≠ "")
    (hsw : el.strokeWidth = some lw) (hswne : lw ≠ 0) :
    (el.type = .path → drawElement s1 el = drawElement s2 el)
    ∧ (∀ f, el.fillColor = some f → f ≠ "" →
        (el.type = .rectangle ∨ el.type = .circle) →
        drawElement s1 el = drawElement s2 el)
    ∧ (el.type = .text →
        drawElement s1 el =
          [DrawCmd.fillText (jsOrStr el.text "Text") el.position s1.fontSize c]) := by
  refine ⟨?_, ?_, ?_⟩
  · intro htype
    simp [drawElement, htype, hc, hsw, jsOrStr, jsOrQ, hcne, hswne]
  · intro f hf hfne htype
    rcases htype with h | h <;>
      simp [drawElement, h, hc, hsw, hf, jsOrStr, jsOrQ, hcne, hswne, hfne]
  · intro htype
    simp [drawElement, htype, hc, jsOrStr, hcne]

/-- Witness for the amended C9: the concrete rectangle `elA` renders
identically under the default settings and the enlarged-font settings. -/
theorem style_capture_spec_witness :
    drawElement stDefault elA = drawElement stBig elA := by
  have h := (style_capture_spec stDefault stBig elA "#374151" 2 rfl (by decide)
    rfl (by decide)).2.1 "transparent" rfl (by decide) (Or.inl rfl)
  exact h
